import Mathlib

/-!
# Verification of the cli-menu-kit rendering core

A shallow embedding of the core of `cli-menu-kit`:

* `src/core/hint-manager.ts` — `calculateVirtualScroll` and the `HintManager` class;
* `src/core/screen-manager.ts` — `fitText` and the `ScreenManager` class;
* `src/layout.ts` — `computeLayout` and the terminal-resize handler of `renderPageV2`.

Strings are embedded as `List Char`; JavaScript `Map`s as insertion-ordered
association lists; terminal output as an explicit list of emitted operations;
`throw` as `Except.error`.
-/

namespace CliMenuKit

/-! ## Virtual scroll calculator (src/core/hint-manager.ts, calculateVirtualScroll) -/

/-- Result record of `calculateVirtualScroll`. -/
structure VirtualScrollResult where
  visibleStart : Nat
  visibleEnd : Nat
  actualLines : Nat
  isScrolled : Bool
  hasItemsBefore : Bool
  hasItemsAfter : Bool
deriving Repr, DecidableEq

/-- Phase 1 / Phase 3 loop: `while (visibleEnd < items.length && currentLines < targetLines)`
with the body guarded by `currentLines + nextLines <= targetLines`.  The loop variable
`visibleEnd` increases by one on every iteration, so the number of remaining iterations
is bounded by `items.length - visibleEnd`; `remaining` carries exactly that bound, making
`remaining = 0` the negation of the guard `visibleEnd < items.length`. -/
def expandDownAux (cost : Nat → Nat) (targetLines : Nat) :
    Nat → Nat → Nat → Nat × Nat
  | 0, visibleEnd, currentLines => (visibleEnd, currentLines)
  | remaining + 1, visibleEnd, currentLines =>
    if currentLines < targetLines then
      let nextLines := cost visibleEnd
      if currentLines + nextLines ≤ targetLines then
        expandDownAux cost targetLines remaining (visibleEnd + 1) (currentLines + nextLines)
      else (visibleEnd, currentLines)
    else (visibleEnd, currentLines)

/-- Phase 1 / Phase 3: expand downward from `visibleEnd` with running total
`currentLines`, never passing `itemCount`. -/
def expandDown (cost : Nat → Nat) (itemCount targetLines visibleEnd currentLines : Nat) :
    Nat × Nat :=
  expandDownAux cost targetLines (itemCount - visibleEnd) visibleEnd currentLines

/-- Phase 2 loop: `while (visibleStart > 0 && currentLines < targetLines)` with the body
guarded by `currentLines + prevLines <= targetLines`; the item examined is
`items[visibleStart - 1]`. -/
def expandUp (cost : Nat → Nat) (targetLines : Nat) : Nat → Nat → Nat × Nat
  | 0, currentLines => (0, currentLines)
  | visibleStart + 1, currentLines =>
    if currentLines < targetLines then
      let prevLines := cost visibleStart
      if currentLines + prevLines ≤ targetLines then
        expandUp cost targetLines visibleStart (currentLines + prevLines)
      else (visibleStart + 1, currentLines)
    else (visibleStart + 1, currentLines)

/-- `calculateVirtualScroll` from src/core/hint-manager.ts.  The item array is abstracted
by its length `itemCount` and the per-index line cost `cost i`
(`getItemLineCount(items[i], i)`); `cursorIndex` is an `Int` because the source checks
`cursorIndex < 0`. -/
def calculateVirtualScroll (itemCount : Nat) (cursorIndex : Int) (targetLines : Nat)
    (cost : Nat → Nat) : Except String VirtualScrollResult :=
  if itemCount = 0 then
    .ok ⟨0, 0, 0, false, false, false⟩
  else if cursorIndex < 0 ∨ (itemCount : Int) ≤ cursorIndex then
    .error s!"cursorIndex {cursorIndex} is out of bounds [0, {itemCount})"
  else
    let c := cursorIndex.toNat
    let estimatedTotalLines := ((List.range itemCount).map cost).sum
    if estimatedTotalLines ≤ targetLines then
      .ok ⟨0, itemCount, estimatedTotalLines, false, false, false⟩
    else
      let firstLines := cost c
      let down1 := expandDown cost itemCount targetLines (c + 1) firstLines
      let up := expandUp cost targetLines c down1.2
      let down2 := expandDown cost itemCount targetLines down1.1 up.2
      .ok ⟨up.1, down2.1, down2.2, true, decide (0 < up.1), decide (down2.1 < itemCount)⟩

example : calculateVirtualScroll 0 0 10 (fun _ => 1) =
    .ok ⟨0, 0, 0, false, false, false⟩ := rfl

example : calculateVirtualScroll 40 35 10 (fun _ => 1) =
    .ok ⟨30, 40, 10, true, true, false⟩ := rfl

example : calculateVirtualScroll 1 0 1 (fun _ => 2) =
    .ok ⟨0, 1, 2, true, false, false⟩ := rfl

theorem expandDownAux_fst_ge (cost : Nat → Nat) (t : Nat) :
    ∀ remaining e cur, e ≤ (expandDownAux cost t remaining e cur).1 := by
  intro remaining
  induction remaining with
  | zero => intro e cur; simp [expandDownAux]
  | succ n ih =>
    intro e cur
    simp only [expandDownAux]
    split
    · split
      · exact Nat.le_trans (Nat.le_succ e) (ih (e + 1) _)
      · exact Nat.le_refl e
    · exact Nat.le_refl e

theorem expandDownAux_snd_le (cost : Nat → Nat) (t : Nat) :
    ∀ remaining e cur, (expandDownAux cost t remaining e cur).2 ≤ max t cur := by
  intro remaining
  induction remaining with
  | zero => intro e cur; simp [expandDownAux]
  | succ n ih =>
    intro e cur
    simp only [expandDownAux]
    split
    · split
      · have h := ih (e + 1) (cur + cost e)
        omega
      · exact Nat.le_max_right t cur
    · exact Nat.le_max_right t cur

theorem expandUp_fst_le (cost : Nat → Nat) (t : Nat) :
    ∀ s cur, (expandUp cost t s cur).1 ≤ s := by
  intro s
  induction s with
  | zero => intro cur; simp [expandUp]
  | succ n ih =>
    intro cur
    simp only [expandUp]
    split
    · split
      · exact Nat.le_trans (ih _) (Nat.le_succ n)
      · exact Nat.le_refl _
    · exact Nat.le_refl _

theorem expandUp_snd_le (cost : Nat → Nat) (t : Nat) :
    ∀ s cur, (expandUp cost t s cur).2 ≤ max t cur := by
  intro s
  induction s with
  | zero => intro cur; simp [expandUp]
  | succ n ih =>
    intro cur
    simp only [expandUp]
    split
    · split
      · have h := ih (cur + cost n)
        omega
      · exact Nat.le_max_right t cur
    · exact Nat.le_max_right t cur

/-- Characterization of `calculateVirtualScroll` in the scrolled branch. -/
theorem calculateVirtualScroll_scrolled_eq (itemCount : Nat) (cursorIndex : Int)
    (targetLines : Nat) (cost : Nat → Nat)
    (h0 : ¬ itemCount = 0)
    (h1 : ¬ (cursorIndex < 0 ∨ (itemCount : Int) ≤ cursorIndex))
    (h2 : ¬ ((List.range itemCount).map cost).sum ≤ targetLines) :
    calculateVirtualScroll itemCount cursorIndex targetLines cost =
      .ok ⟨(expandUp cost targetLines cursorIndex.toNat
              (expandDown cost itemCount targetLines (cursorIndex.toNat + 1)
                (cost cursorIndex.toNat)).2).1,
           (expandDown cost itemCount targetLines
              (expandDown cost itemCount targetLines (cursorIndex.toNat + 1)
                (cost cursorIndex.toNat)).1
              (expandUp cost targetLines cursorIndex.toNat
                (expandDown cost itemCount targetLines (cursorIndex.toNat + 1)
                  (cost cursorIndex.toNat)).2).2).1,
           (expandDown cost itemCount targetLines
              (expandDown cost itemCount targetLines (cursorIndex.toNat + 1)
                (cost cursorIndex.toNat)).1
              (expandUp cost targetLines cursorIndex.toNat
                (expandDown cost itemCount targetLines (cursorIndex.toNat + 1)
                  (cost cursorIndex.toNat)).2).2).2,
           true,
           decide (0 < (expandUp cost targetLines cursorIndex.toNat
              (expandDown cost itemCount targetLines (cursorIndex.toNat + 1)
                (cost cursorIndex.toNat)).2).1),
           decide ((expandDown cost itemCount targetLines
              (expandDown cost itemCount targetLines (cursorIndex.toNat + 1)
                (cost cursorIndex.toNat)).1
              (expandUp cost targetLines cursorIndex.toNat
                (expandDown cost itemCount targetLines (cursorIndex.toNat + 1)
                  (cost cursorIndex.toNat)).2).2).1 < itemCount)⟩ := by
  simp only [calculateVirtualScroll]
  rw [if_neg h0, if_neg h1, if_neg h2]

theorem expandDown_fst_ge (cost : Nat → Nat) (n t e cur : Nat) :
    e ≤ (expandDown cost n t e cur).1 :=
  expandDownAux_fst_ge cost t (n - e) e cur

theorem expandDown_snd_le (cost : Nat → Nat) (n t e cur : Nat) :
    (expandDown cost n t e cur).2 ≤ max t cur :=
  expandDownAux_snd_le cost t (n - e) e cur

/-- Characterization of `calculateVirtualScroll` in the everything-fits branch. -/
theorem calculateVirtualScroll_notScrolled_eq (itemCount : Nat) (cursorIndex : Int)
    (targetLines : Nat) (cost : Nat → Nat)
    (h0 : ¬ itemCount = 0)
    (h1 : ¬ (cursorIndex < 0 ∨ (itemCount : Int) ≤ cursorIndex))
    (ht : ((List.range itemCount).map cost).sum ≤ targetLines) :
    calculateVirtualScroll itemCount cursorIndex targetLines cost =
      .ok ⟨0, itemCount, ((List.range itemCount).map cost).sum, false, false, false⟩ := by
  simp only [calculateVirtualScroll]
  rw [if_neg h0, if_neg h1, if_pos ht]

/-- C5: if the total line cost fits within `targetLines`, the window is the whole
sequence and `isScrolled = false`; for `itemCount = 0` the empty window is returned. -/
theorem virtualScroll_completeness :
    (∀ (itemCount : Nat) (cursorIndex : Int) (targetLines : Nat) (cost : Nat → Nat),
      0 < itemCount → 0 ≤ cursorIndex → cursorIndex < (itemCount : Int) →
      ((List.range itemCount).map cost).sum ≤ targetLines →
      calculateVirtualScroll itemCount cursorIndex targetLines cost =
        .ok ⟨0, itemCount, ((List.range itemCount).map cost).sum, false, false, false⟩) ∧
    (∀ (cursorIndex : Int) (targetLines : Nat) (cost : Nat → Nat),
      calculateVirtualScroll 0 cursorIndex targetLines cost =
        .ok ⟨0, 0, 0, false, false, false⟩) := by
  constructor
  · intro itemCount cursorIndex targetLines cost h0 hc1 hc2 ht
    exact calculateVirtualScroll_notScrolled_eq itemCount cursorIndex targetLines cost
      (by omega) (by omega) ht
  · intro cursorIndex targetLines cost
    simp [calculateVirtualScroll]

theorem virtualScroll_completeness_witness :
    calculateVirtualScroll 3 1 5 (fun _ => 1) = .ok ⟨0, 3, 3, false, false, false⟩ ∧
    calculateVirtualScroll 0 7 9 (fun _ => 1) = .ok ⟨0, 0, 0, false, false, false⟩ :=
  ⟨(virtualScroll_completeness.1 3 1 5 (fun _ => 1) (by decide) (by decide) (by decide)
      (by decide)).trans rfl,
   virtualScroll_completeness.2 7 9 (fun _ => 1)⟩

/-- C6: whenever `itemCount > 0` and the cursor is in bounds, the computed window
contains the cursor: `visibleStart ≤ cursorIndex < visibleEnd`. -/
theorem virtualScroll_cursor_in_window (itemCount : Nat) (cursorIndex : Int)
    (targetLines : Nat) (cost : Nat → Nat) (r : VirtualScrollResult)
    (h0 : 0 < itemCount) (hc1 : 0 ≤ cursorIndex) (hc2 : cursorIndex < (itemCount : Int))
    (hr : calculateVirtualScroll itemCount cursorIndex targetLines cost = .ok r) :
    r.visibleStart ≤ cursorIndex.toNat ∧ cursorIndex.toNat < r.visibleEnd := by
  by_cases ht : ((List.range itemCount).map cost).sum ≤ targetLines
  · rw [calculateVirtualScroll_notScrolled_eq itemCount cursorIndex targetLines cost
      (by omega) (by omega) ht] at hr
    injection hr with h
    subst h
    exact ⟨Nat.zero_le _, by simp only [VirtualScrollResult.visibleEnd]; omega⟩
  · rw [calculateVirtualScroll_scrolled_eq itemCount cursorIndex targetLines cost
      (by omega) (by omega) ht] at hr
    injection hr with h
    subst h
    refine ⟨expandUp_fst_le cost targetLines _ _, ?_⟩
    simp only [VirtualScrollResult.visibleEnd]
    have h1 := expandDown_fst_ge cost itemCount targetLines (cursorIndex.toNat + 1)
      (cost cursorIndex.toNat)
    have h2 := expandDown_fst_ge cost itemCount targetLines
      (expandDown cost itemCount targetLines (cursorIndex.toNat + 1)
        (cost cursorIndex.toNat)).1
      (expandUp cost targetLines cursorIndex.toNat
        (expandDown cost itemCount targetLines (cursorIndex.toNat + 1)
          (cost cursorIndex.toNat)).2).2
    omega

theorem virtualScroll_cursor_in_window_witness :
    (VirtualScrollResult.mk 1 3 2 true true false).visibleStart ≤ Int.toNat 1 ∧
    Int.toNat 1 < (VirtualScrollResult.mk 1 3 2 true true false).visibleEnd :=
  virtualScroll_cursor_in_window 3 1 2 (fun _ => 1) _ (by decide) (by decide) (by decide) rfl

/-- C2 (amended): `actualLines` never exceeds `max targetLines (cost cursorIndex)`;
in particular `actualLines ≤ targetLines` whenever the cursor item's own cost fits in
the budget, and `hasItemsBefore || hasItemsAfter` implies `isScrolled`. -/
theorem virtualScroll_budget_amended (itemCount : Nat) (cursorIndex : Int)
    (targetLines : Nat) (cost : Nat → Nat) (r : VirtualScrollResult)
    (h0 : 0 < itemCount) (hcost : ∀ i, 1 ≤ cost i)
    (hc1 : 0 ≤ cursorIndex) (hc2 : cursorIndex < (itemCount : Int))
    (hr : calculateVirtualScroll itemCount cursorIndex targetLines cost = .ok r) :
    r.actualLines ≤ max targetLines (cost cursorIndex.toNat) ∧
    (cost cursorIndex.toNat ≤ targetLines → r.actualLines ≤ targetLines) ∧
    ((r.hasItemsBefore || r.hasItemsAfter) = true → r.isScrolled = true) := by
  by_cases ht : ((List.range itemCount).map cost).sum ≤ targetLines
  · rw [calculateVirtualScroll_notScrolled_eq itemCount cursorIndex targetLines cost
      (by omega) (by omega) ht] at hr
    injection hr with h
    subst h
    refine ⟨?_, fun _ => ht, by simp⟩
    simp only [VirtualScrollResult.actualLines]
    rw [le_max_iff]
    exact Or.inl ht
  · rw [calculateVirtualScroll_scrolled_eq itemCount cursorIndex targetLines cost
      (by omega) (by omega) ht] at hr
    injection hr with h
    subst h
    have hA := expandDown_snd_le cost itemCount targetLines (cursorIndex.toNat + 1)
      (cost cursorIndex.toNat)
    have hB := expandUp_snd_le cost targetLines cursorIndex.toNat
      (expandDown cost itemCount targetLines (cursorIndex.toNat + 1)
        (cost cursorIndex.toNat)).2
    have hC := expandDown_snd_le cost itemCount targetLines
      (expandDown cost itemCount targetLines (cursorIndex.toNat + 1)
        (cost cursorIndex.toNat)).1
      (expandUp cost targetLines cursorIndex.toNat
        (expandDown cost itemCount targetLines (cursorIndex.toNat + 1)
          (cost cursorIndex.toNat)).2).2
    rw [le_max_iff] at hA hB hC
    simp only [VirtualScrollResult.actualLines, VirtualScrollResult.isScrolled]
    refine ⟨?_, ?_, fun _ => trivial⟩
    · rw [le_max_iff]; omega
    · omega

theorem virtualScroll_budget_amended_witness :
    (VirtualScrollResult.mk 1 3 2 true true false).actualLines ≤
      max 2 ((fun _ : Nat => 1) (Int.toNat 1)) ∧
    ((fun _ : Nat => 1) (Int.toNat 1) ≤ 2 →
      (VirtualScrollResult.mk 1 3 2 true true false).actualLines ≤ 2) ∧
    (((VirtualScrollResult.mk 1 3 2 true true false).hasItemsBefore ||
        (VirtualScrollResult.mk 1 3 2 true true false).hasItemsAfter) = true →
      (VirtualScrollResult.mk 1 3 2 true true false).isScrolled = true) :=
  virtualScroll_budget_amended 3 1 2 (fun _ => 1) _ (by decide) (fun _ => Nat.le_refl 1)
    (by decide) (by decide) rfl

/-- C2 counterexample: a single item of cost 2 with `targetLines = 1` (costs are ≥ 1 and
the cursor is in bounds) yields `actualLines = 2 > 1 = targetLines`, refuting
"`actualLines <= targetLines` always". -/
theorem virtualScroll_budget_counterexample :
    calculateVirtualScroll 1 0 1 (fun _ => 2) = .ok ⟨0, 1, 2, true, false, false⟩ ∧
    ¬ (2 ≤ 1) :=
  ⟨rfl, by decide⟩

/-! ## Screen manager (src/core/screen-manager.ts) -/

/-- The escape character `\x1b` that starts every CSI sequence. -/
def ESC : Char := '\x1b'

/-- A character matching the regex class `[0-9;]`. -/
def isCsiBody (c : Char) : Bool := c.isDigit || c = ';'

/-- Scanner for `text.replace(/\x1b\[[0-9;]*m/g, '')`: walk the string left to right,
deleting every occurrence of `ESC [ [0-9;]* m`.  (A greedy `[0-9;]*` followed by the
literal `m` matches exactly the maximal run of `[0-9;]` characters, since backtracking
can never land on an `m`.)  `fuel` only has to dominate the length of the list —
every recursive call strictly shrinks the list, so `stripAnsi` below instantiates
`fuel` with the length and the `0` case is never hit. -/
def stripAnsiF : Nat → List Char → List Char
  | 0, l => l
  | fuel + 1, l =>
    match l with
    | [] => []
    | c :: rest =>
      if c = ESC then
        match rest with
        | '[' :: rest2 =>
          match rest2.dropWhile isCsiBody with
          | 'm' :: rest3 => stripAnsiF fuel rest3
          | _ => c :: stripAnsiF fuel rest
        | _ => c :: stripAnsiF fuel rest
      else c :: stripAnsiF fuel rest

/-- `text.replace(/\x1b\[[0-9;]*m/g, '')` from `fitText`. -/
def stripAnsi (text : List Char) : List Char := stripAnsiF text.length text

/-- Scanner for `text.match(/^(\x1b\[[0-9;]*m)*/)[0]`: the maximal run of complete
CSI style sequences at the start of the string.  Fuel as in `stripAnsiF`. -/
def ansiPrefixF : Nat → List Char → List Char
  | 0, _ => []
  | fuel + 1, l =>
    match l with
    | c :: '[' :: rest2 =>
      if c = ESC then
        match rest2.dropWhile isCsiBody with
        | 'm' :: rest3 =>
          (c :: '[' :: rest2.takeWhile isCsiBody) ++ 'm' :: ansiPrefixF fuel rest3
        | _ => []
      else []
    | _ => []

/-- The ANSI-code run matched by `text.match(/^(\x1b\[[0-9;]*m)*/)` in `fitText`. -/
def ansiPrefix (text : List Char) : List Char := ansiPrefixF text.length text

/-- `fitText` from src/core/screen-manager.ts: pad with trailing spaces or truncate so
that the ANSI-stripped length is meant to equal `width`; on truncation the leading run
of ANSI codes is preserved and the remainder is cut to `width` characters. -/
def fitText (text : List Char) (width : Nat) : List Char :=
  let stripped := stripAnsi text
  let len := stripped.length
  if len = width then text
  else if len < width then text ++ List.replicate (width - len) ' '
  else
    let pre := ansiPrefix text
    let content := text.drop pre.length
    pre ++ content.take width

example : fitText ['a', 'b'] 10 =
    ['a', 'b', ' ', ' ', ' ', ' ', ' ', ' ', ' ', ' '] := by decide

example : fitText ['a', 'b', 'c', 'd', 'e', 'f', 'g', 'h', 'i', 'j', 'k', 'l'] 10 =
    ['a', 'b', 'c', 'd', 'e', 'f', 'g', 'h', 'i', 'j'] := by decide

example : fitText ['\x1b', '[', '3', '1', 'm', 'a', 'b', 'c'] 2 =
    ['\x1b', '[', '3', '1', 'm', 'a', 'b'] := by decide

example : fitText ['a', '\x1b', '[', '1', 'm', 'b', 'c', 'd', 'e', 'f'] 5 =
    ['a', '\x1b', '[', '1', 'm'] := by decide

/-- `Rect` from src/core/screen-manager.ts. -/
structure Rect where
  top : Nat
  left : Nat
  width : Nat
  height : Nat
deriving Repr, DecidableEq

/-- A terminal operation emitted by the screen manager: `moveTo(row, col)` (the CSI
`row;colH` sequence) or a `process.stdout.write` of a line. -/
inductive TermOp where
  | moveTo (row col : Nat)
  | write (s : List Char)
deriving Repr, DecidableEq

/-- JS `Map.set`: replace the value in place when the key is present, append otherwise
(insertion order preserved). -/
def mapSet {α : Type} : List (String × α) → String → α → List (String × α)
  | [], k, v => [(k, v)]
  | (k', v') :: rest, k, v =>
    if k' = k then (k, v) :: rest else (k', v') :: mapSet rest k v

/-- The mutable fields of the `ScreenManager` class relevant to rendering:
`cache : Map<string, string[]>` and `regions : Map<string, Rect>`. -/
structure ScreenState where
  cache : List (String × List (List Char))
  regions : List (String × Rect)
deriving Repr, DecidableEq

/-- An empty `ScreenManager`. -/
def ScreenState.empty : ScreenState := ⟨[], []⟩

/-- `registerRegion(id, rect)`. -/
def registerRegion (st : ScreenState) (id : String) (rect : Rect) : ScreenState :=
  { st with regions := mapSet st.regions id rect }

/-- The `next` array built by `renderRegion`:
`Array.from({length: rect.height}, (_, i) => fitText(lines[i] ?? '', rect.width))`. -/
def normalizeLines (lines : List (List Char)) (rect : Rect) : List (List Char) :=
  (List.range rect.height).map fun i => fitText ((lines[i]?).getD []) rect.width

/-- The update loop of `renderRegion`: for each `i < rect.height` with
`next[i] !== prev[i]`, a cursor move to `(rect.top + i, rect.left)` followed by a write
of `next[i]`; lines with `next[i] === prev[i]` are skipped (`continue`). -/
def diffOps (prev next : List (List Char)) (rect : Rect) : List TermOp :=
  (List.range rect.height).flatMap fun i =>
    if next[i]? = prev[i]? then []
    else [TermOp.moveTo (rect.top + i) rect.left, TermOp.write ((next[i]?).getD [])]

/-- `renderRegion(id, lines)`: diff-based region render.  Returns the updated state and
the list of terminal operations performed, or an error for an unregistered id. -/
def renderRegion (st : ScreenState) (id : String) (lines : List (List Char)) :
    Except String (ScreenState × List TermOp) :=
  match st.regions.lookup id with
  | none => .error s!"Region {id} not registered"
  | some rect =>
    let prev := (st.cache.lookup id).getD []
    let next := normalizeLines lines rect
    let ops := diffOps prev next rect
    .ok ({ st with cache := mapSet st.cache id next }, ops)

/-- `clearRegion(id)`: fill every line of the region with spaces and cache the blanks. -/
def clearRegion (st : ScreenState) (id : String) :
    Except String (ScreenState × List TermOp) :=
  match st.regions.lookup id with
  | none => .error s!"Region {id} not registered"
  | some rect =>
    let blank := List.replicate rect.width ' '
    let ops := (List.range rect.height).flatMap fun i =>
      [TermOp.moveTo (rect.top + i) rect.left, TermOp.write blank]
    .ok ({ st with cache := mapSet st.cache id (List.replicate rect.height blank) }, ops)

/-- `invalidateAll()`: drop every cached region. -/
def invalidateAll (st : ScreenState) : ScreenState := { st with cache := [] }

/-! ## Layout calculator and the resize handler (src/layout.ts) -/

/-- The `Layout` interface of src/layout.ts. -/
structure Layout where
  header : Rect
  main : Rect
  footerHints : Rect
  footerPrompt : Rect
deriving Repr, DecidableEq

/-- `computeLayout` from src/layout.ts (terminal size passed explicitly; JS number
subtraction that goes negative is clamped by the `Math.max(1, ...)`, so truncated `Nat`
subtraction agrees with it). -/
def computeLayout (rows cols : Nat) : Layout :=
  let headerHeight := 13
  let footerHintsHeight := 1
  let footerPromptHeight := 1
  let mainHeight := max 1 (rows - headerHeight - footerHintsHeight - footerPromptHeight)
  { header := ⟨1, 1, cols, headerHeight⟩
    main := ⟨1 + headerHeight, 1, cols, mainHeight⟩
    footerHints := ⟨1 + headerHeight + mainHeight, 1, cols, footerHintsHeight⟩
    footerPrompt := ⟨1 + headerHeight + mainHeight + footerHintsHeight, 1, cols,
      footerPromptHeight⟩ }

/-- The `process.stdout.on('resize', ...)` handler installed by `renderPageV2`
(src/layout.ts): it computes a new layout (which it discards) and calls
`invalidateAll()`, and nothing else — the re-registration/re-render step exists only as
a comment in the source. -/
def resizeHandler (rows cols : Nat) (st : ScreenState) : ScreenState × List TermOp :=
  let _newLayout := computeLayout rows cols
  (invalidateAll st, [])

/-! ## Lemmas about the ANSI scanners -/

theorem stripAnsiF_nil : ∀ fuel, stripAnsiF fuel [] = [] := by
  intro fuel; cases fuel <;> rfl

theorem stripAnsiF_cons_ne (fuel : Nat) (c : Char) (rest : List Char) (h : ¬ c = ESC) :
    stripAnsiF (fuel + 1) (c :: rest) = c :: stripAnsiF fuel rest := by
  simp [stripAnsiF, h]

theorem stripAnsiF_esc_m (fuel : Nat) (rest2 rest3 : List Char)
    (h : rest2.dropWhile isCsiBody = 'm' :: rest3) :
    stripAnsiF (fuel + 1) (ESC :: '[' :: rest2) = stripAnsiF fuel rest3 := by
  simp [stripAnsiF, h]

theorem stripAnsiF_esc_not_m (fuel : Nat) (rest2 : List Char) (c' : Char)
    (rest3 : List Char) (h : rest2.dropWhile isCsiBody = c' :: rest3) (hm : ¬ c' = 'm') :
    stripAnsiF (fuel + 1) (ESC :: '[' :: rest2) = ESC :: stripAnsiF fuel ('[' :: rest2) := by
  simp [stripAnsiF, h, hm]

theorem stripAnsiF_esc_empty (fuel : Nat) (rest2 : List Char)
    (h : rest2.dropWhile isCsiBody = []) :
    stripAnsiF (fuel + 1) (ESC :: '[' :: rest2) = ESC :: stripAnsiF fuel ('[' :: rest2) := by
  simp [stripAnsiF, h]

theorem stripAnsiF_esc_nil (fuel : Nat) :
    stripAnsiF (fuel + 1) [ESC] = ESC :: stripAnsiF fuel [] := by
  simp [stripAnsiF]

theorem stripAnsiF_esc_other (fuel : Nat) (c2 : Char) (rest' : List Char)
    (h : ¬ c2 = '[') :
    stripAnsiF (fuel + 1) (ESC :: c2 :: rest') = ESC :: stripAnsiF fuel (c2 :: rest') := by
  simp [stripAnsiF, h]

/-- A string without the escape character is left unchanged by the scanner. -/
theorem stripAnsiF_of_noEsc : ∀ (fuel : Nat) (l : List Char), ESC ∉ l →
    stripAnsiF fuel l = l := by
  intro fuel
  induction fuel with
  | zero => intro l _; rfl
  | succ f ih =>
    intro l h
    match l with
    | [] => exact stripAnsiF_nil _
    | c :: rest =>
      have hc : ¬ c = ESC := fun e => h (by simp [e])
      rw [stripAnsiF_cons_ne f c rest hc, ih rest (fun hm => h (List.mem_cons_of_mem c hm))]

/-- The scanner does not depend on the fuel once the fuel dominates the length. -/
theorem stripAnsiF_congr : ∀ (fuel₁ fuel₂ : Nat) (l : List Char),
    l.length ≤ fuel₁ → l.length ≤ fuel₂ → stripAnsiF fuel₁ l = stripAnsiF fuel₂ l := by
  intro fuel₁
  induction fuel₁ with
  | zero =>
    intro fuel₂ l h1 _
    have : l = [] := List.length_eq_zero.mp (Nat.le_zero.mp h1)
    subst this
    rw [stripAnsiF_nil, stripAnsiF_nil]
  | succ f ih =>
    intro fuel₂ l h1 h2
    match l with
    | [] => rw [stripAnsiF_nil, stripAnsiF_nil]
    | c :: rest =>
      simp only [List.length_cons] at h1 h2
      obtain ⟨f2, rfl⟩ : ∃ f2, fuel₂ = f2 + 1 := ⟨fuel₂ - 1, by omega⟩
      by_cases hc : c = ESC
      · subst hc
        match rest with
        | [] => rw [stripAnsiF_esc_nil, stripAnsiF_esc_nil, stripAnsiF_nil, stripAnsiF_nil]
        | c2 :: rest' =>
          simp only [List.length_cons] at h1 h2
          by_cases h2c : c2 = '['
          · subst h2c
            cases hd : rest'.dropWhile isCsiBody with
            | nil =>
              rw [stripAnsiF_esc_empty f rest' hd, stripAnsiF_esc_empty f2 rest' hd]
              congr 1
              exact ih f2 ('[' :: rest') (by simp; omega) (by simp; omega)
            | cons c' r3 =>
              have hlen : r3.length + 1 ≤ rest'.length := by
                have := (rest'.dropWhile_suffix isCsiBody).length_le
                rw [hd] at this
                simpa using this
              by_cases hm : c' = 'm'
              · subst hm
                rw [stripAnsiF_esc_m f rest' r3 hd, stripAnsiF_esc_m f2 rest' r3 hd]
                exact ih f2 r3 (by omega) (by omega)
              · rw [stripAnsiF_esc_not_m f rest' c' r3 hd hm,
                  stripAnsiF_esc_not_m f2 rest' c' r3 hd hm]
                congr 1
                exact ih f2 ('[' :: rest') (by simp; omega) (by simp; omega)
          · rw [stripAnsiF_esc_other f c2 rest' h2c, stripAnsiF_esc_other f2 c2 rest' h2c]
            congr 1
            exact ih f2 (c2 :: rest') (by simp; omega) (by simp; omega)
      · rw [stripAnsiF_cons_ne f c rest hc, stripAnsiF_cons_ne f2 c rest hc]
        congr 1
        exact ih f2 rest (by omega) (by omega)

theorem stripAnsi_eq_stripAnsiF (fuel : Nat) (l : List Char) (h : l.length ≤ fuel) :
    stripAnsi l = stripAnsiF fuel l :=
  stripAnsiF_congr l.length fuel l (Nat.le_refl _) h

theorem stripAnsi_of_noEsc (l : List Char) (h : ESC ∉ l) : stripAnsi l = l :=
  stripAnsiF_of_noEsc l.length l h

theorem noEsc_replicate_space (k : Nat) : ESC ∉ List.replicate k ' ' := by
  intro h
  rw [List.mem_replicate] at h
  exact absurd h.2 (by decide)

/-- Appending trailing spaces commutes with the scanner: a space can neither start nor
continue a CSI match, so no match crosses the boundary. -/
theorem stripAnsiF_append_spaces (k' : Nat) : ∀ (fuel : Nat) (l : List Char),
    stripAnsiF fuel (l ++ List.replicate (k' + 1) ' ') =
      stripAnsiF fuel l ++ List.replicate (k' + 1) ' ' := by
  intro fuel
  induction fuel with
  | zero => intro l; rfl
  | succ f ih =>
    intro l
    match l with
    | [] =>
      rw [List.nil_append, stripAnsiF_nil, List.nil_append]
      exact stripAnsiF_of_noEsc _ _ (noEsc_replicate_space _)
    | c :: rest =>
      by_cases hc : c = ESC
      · subst hc
        match rest with
        | [] =>
          rw [List.cons_append, List.nil_append, List.replicate_succ,
            stripAnsiF_esc_other f ' ' _ (by decide),
            stripAnsiF_of_noEsc f _ (by rw [← List.replicate_succ]; exact noEsc_replicate_space _),
            stripAnsiF_esc_nil, stripAnsiF_nil]
          simp [List.replicate_succ]
        | c2 :: rest' =>
          by_cases h2 : c2 = '['
          · subst h2
            cases hd : rest'.dropWhile isCsiBody with
            | nil =>
              have hd' : (rest' ++ List.replicate (k' + 1) ' ').dropWhile isCsiBody =
                  ' ' :: List.replicate k' ' ' := by
                rw [List.dropWhile_append, hd]
                simp [List.replicate_succ, List.dropWhile_cons, isCsiBody]
              rw [List.cons_append, List.cons_append,
                stripAnsiF_esc_not_m f _ ' ' _ hd' (by decide),
                stripAnsiF_esc_empty f rest' hd, ← List.cons_append, ih ('[' :: rest')]
              simp [List.replicate_succ]
            | cons c' r3 =>
              have hd' : (rest' ++ List.replicate (k' + 1) ' ').dropWhile isCsiBody =
                  c' :: (r3 ++ List.replicate (k' + 1) ' ') := by
                rw [List.dropWhile_append, hd]
                simp
              by_cases hm : c' = 'm'
              · subst hm
                rw [List.cons_append, List.cons_append, stripAnsiF_esc_m f _ _ hd',
                  stripAnsiF_esc_m f rest' r3 hd]
                exact ih r3
              · rw [List.cons_append, List.cons_append,
                  stripAnsiF_esc_not_m f _ c' _ hd' hm,
                  stripAnsiF_esc_not_m f rest' c' r3 hd hm, ← List.cons_append,
                  ih ('[' :: rest')]
                simp
          · rw [List.cons_append, List.cons_append, stripAnsiF_esc_other f c2 _ h2,
              ← List.cons_append, ih (c2 :: rest'), stripAnsiF_esc_other f c2 rest' h2]
            simp
      · rw [List.cons_append, stripAnsiF_cons_ne f c _ hc, ih rest,
          stripAnsiF_cons_ne f c rest hc, List.cons_append]

theorem stripAnsi_append_spaces (l : List Char) (k : Nat) :
    stripAnsi (l ++ List.replicate k ' ') = stripAnsi l ++ List.replicate k ' ' := by
  cases k with
  | zero => simp
  | succ k' =>
    show stripAnsiF (l ++ List.replicate (k' + 1) ' ').length
        (l ++ List.replicate (k' + 1) ' ') = _
    rw [stripAnsiF_append_spaces k' _ l]
    exact congrArg (· ++ List.replicate (k' + 1) ' ')
      (stripAnsiF_congr _ _ l (by simp) (Nat.le_refl _))

theorem ansiPrefix_of_noEsc (t : List Char) (h : ESC ∉ t) : ansiPrefix t = [] := by
  match t with
  | [] => rfl
  | [c] => rfl
  | c :: c2 :: rest =>
    have hc : ¬ c = ESC := fun e => h (by simp [e])
    show ansiPrefixF (rest.length + 2) (c :: c2 :: rest) = []
    by_cases h2 : c2 = '['
    · subst h2; simp [ansiPrefixF, hc]
    · simp [ansiPrefixF, h2]

/-! ## Lemmas about fitText -/

/-- When the visible length fits, `fitText` right-pads with spaces (padding by zero
spaces in the exact-fit case). -/
theorem fitText_eq_pad (t : List Char) (w : Nat) (h : (stripAnsi t).length ≤ w) :
    fitText t w = t ++ List.replicate (w - (stripAnsi t).length) ' ' := by
  by_cases he : (stripAnsi t).length = w
  · simp [fitText, he]
  · have hlt : (stripAnsi t).length < w := Nat.lt_of_le_of_ne h he
    simp [fitText, he, hlt]

/-- When the visible length overflows, `fitText` keeps the leading ANSI run and cuts
the remainder to `w` raw characters. -/
theorem fitText_eq_trunc (t : List Char) (w : Nat) (h : w < (stripAnsi t).length) :
    fitText t w = ansiPrefix t ++ (t.drop (ansiPrefix t).length).take w := by
  simp [fitText, show ¬ (stripAnsi t).length = w by omega,
    show ¬ (stripAnsi t).length < w by omega]

/-- In the padding case the visible length of the result is exactly `w`. -/
theorem stripAnsi_fitText_of_le (t : List Char) (w : Nat)
    (h : (stripAnsi t).length ≤ w) : (stripAnsi (fitText t w)).length = w := by
  rw [fitText_eq_pad t w h, stripAnsi_append_spaces]
  simp only [List.length_append, List.length_replicate]
  omega

/-- The empty line is normalized to a full row of spaces. -/
theorem fitText_nil (w : Nat) : fitText [] w = List.replicate w ' ' := by
  rw [fitText_eq_pad [] w (by simp [stripAnsi, stripAnsiF_nil])]
  simp [stripAnsi, stripAnsiF_nil]

/-- For escape-free text the raw length of `fitText` is exactly `w`. -/
theorem fitText_length_of_noEsc (t : List Char) (w : Nat) (h : ESC ∉ t) :
    (fitText t w).length = w := by
  rcases le_or_lt (stripAnsi t).length w with hle | hlt
  · rw [fitText_eq_pad t w hle, stripAnsi_of_noEsc t h] at *
    simp only [List.length_append, List.length_replicate]
    omega
  · rw [fitText_eq_trunc t w hlt, ansiPrefix_of_noEsc t h]
    rw [stripAnsi_of_noEsc t h] at hlt
    simp
    omega

/-- For escape-free text the visible length of `fitText` is exactly `w` as well
(stripping is the identity on the result, which is also escape-free). -/
theorem stripAnsi_fitText_of_noEsc (t : List Char) (w : Nat) (h : ESC ∉ t) :
    (stripAnsi (fitText t w)).length = w := by
  rcases le_or_lt (stripAnsi t).length w with hle | hlt
  · exact stripAnsi_fitText_of_le t w hle
  · rw [fitText_eq_trunc t w hlt, ansiPrefix_of_noEsc t h]
    simp only [List.length_nil, List.drop_zero, List.nil_append]
    have hsub : ESC ∉ t.take w := fun hm => h (List.mem_of_mem_take hm)
    rw [stripAnsi_of_noEsc _ hsub, List.length_take]
    rw [stripAnsi_of_noEsc t h] at hlt
    omega

/-! ## Lemmas about mapSet and the region maps -/

theorem lookup_mapSet_self {α : Type} (m : List (String × α)) (k : String) (v : α) :
    (mapSet m k v).lookup k = some v := by
  induction m with
  | nil => simp [mapSet, List.lookup]
  | cons p rest ih =>
    obtain ⟨k', v'⟩ := p
    by_cases h : k' = k
    · subst h; simp [mapSet, List.lookup]
    · simp only [mapSet, if_neg h, List.lookup_cons,
        show (k == k') = false from beq_eq_false_iff_ne.mpr (Ne.symm h)]
      exact ih

theorem mapSet_mapSet {α : Type} (m : List (String × α)) (k : String) (v w : α) :
    mapSet (mapSet m k v) k w = mapSet m k w := by
  induction m with
  | nil => simp [mapSet]
  | cons p rest ih =>
    obtain ⟨k', v'⟩ := p
    by_cases h : k' = k
    · subst h; simp [mapSet]
    · simp [mapSet, h, ih]

/-- Unfolding of `renderRegion` for a registered region. -/
theorem renderRegion_eq (st : ScreenState) (id : String) (lines : List (List Char))
    (rect : Rect) (hreg : st.regions.lookup id = some rect) :
    renderRegion st id lines =
      .ok ({ st with cache := mapSet st.cache id (normalizeLines lines rect) },
           diffOps ((st.cache.lookup id).getD []) (normalizeLines lines rect) rect) := by
  simp only [renderRegion, hreg]

/-! ## Hint manager (src/core/hint-manager.ts, class HintManager) -/

/-- `HintEntry` from src/core/hint-manager.ts. -/
structure HintEntry where
  text : String
  priority : Int
  timestamp : Nat
deriving Repr, DecidableEq

/-- The `entries : Map<string, HintEntry>` field of `HintManager`, as an
insertion-ordered association list. -/
structure HintState where
  entries : List (String × HintEntry)
deriving Repr, DecidableEq

/-- A fresh `HintManager`. -/
def HintState.empty : HintState := ⟨[]⟩

/-- `set(token, text, priority)`; `Date.now()` is passed explicitly as `now`. -/
def hintSet (st : HintState) (token text : String) (priority : Int) (now : Nat) :
    HintState :=
  ⟨mapSet st.entries token ⟨text, priority, now⟩⟩

/-- `clear(token)`: `Map.delete` of a single key. -/
def hintClear (st : HintState) (token : String) : HintState :=
  ⟨st.entries.eraseP (fun p => p.1 == token)⟩

/-- `clearAll()`. -/
def hintClearAll (_st : HintState) : HintState := ⟨[]⟩

/-- The sort comparator `(a, b) => b.priority - a.priority`, tie-broken by
`b.timestamp - a.timestamp`, recast as the boolean test "the comparator does not order
`a` strictly after `b`" (comparator value `<= 0`), which is the `le` relation realised
by the sort. -/
def hintLe (a b : HintEntry) : Bool :=
  if a.priority = b.priority then decide (b.timestamp ≤ a.timestamp)
  else decide (b.priority < a.priority)

/-- `current()`: sort the entry values by the comparator (descending priority, then
most recent timestamp) and return the first text, or `''` when there are none.
ES2019 requires `Array.prototype.sort` to be stable, and a stable sort under a total
preorder has a unique result, so the stable insertion sort models it exactly. -/
def current (st : HintState) : String :=
  match (st.entries.map (·.2)).insertionSort (fun a b => hintLe a b = true) with
  | [] => ""
  | e :: _ => e.text

theorem hintLe_trans (a b c : HintEntry) (h1 : hintLe a b = true)
    (h2 : hintLe b c = true) : hintLe a c = true := by
  simp only [hintLe] at h1 h2 ⊢
  by_cases hab : a.priority = b.priority
  · rw [if_pos hab] at h1
    by_cases hbc : b.priority = c.priority
    · rw [if_pos hbc] at h2
      rw [if_pos (hab.trans hbc)]
      simp only [decide_eq_true_eq] at *
      omega
    · rw [if_neg hbc] at h2
      rw [if_neg (show ¬ a.priority = c.priority by rw [hab]; exact hbc)]
      rw [hab]
      exact h2
  · rw [if_neg hab] at h1
    by_cases hbc : b.priority = c.priority
    · rw [if_pos hbc] at h2
      rw [if_neg (show ¬ a.priority = c.priority by rw [← hbc]; exact hab)]
      simp only [decide_eq_true_eq] at *
      omega
    · rw [if_neg hbc] at h2
      simp only [decide_eq_true_eq] at h1 h2
      rw [if_neg (show ¬ a.priority = c.priority by omega)]
      simp only [decide_eq_true_eq]
      omega

theorem hintLe_total (a b : HintEntry) : (hintLe a b || hintLe b a) = true := by
  simp only [hintLe, Bool.or_eq_true]
  split_ifs <;> simp only [decide_eq_true_eq] <;> omega

instance : IsTrans HintEntry (fun a b => hintLe a b = true) := ⟨hintLe_trans⟩

instance : IsTotal HintEntry (fun a b => hintLe a b = true) :=
  ⟨fun a b => by simpa [Bool.or_eq_true] using hintLe_total a b⟩

/-- C7: `current()` returns the text of a highest-priority entry, most recent timestamp
among those, and `""` on an empty registry; with A at priority 5 and B at priority 10,
`current()` is B's text, after `clear('B')` A's text, after `clearAll()` the empty
string. -/
theorem hint_current_ordering :
    (∀ st : HintState,
      (st.entries = [] → current st = "") ∧
      (st.entries ≠ [] →
        ∃ e ∈ st.entries.map (·.2), current st = e.text ∧
          ∀ e' ∈ st.entries.map (·.2),
            e'.priority ≤ e.priority ∧
            (e'.priority = e.priority → e'.timestamp ≤ e.timestamp))) ∧
    (current (hintSet (hintSet HintState.empty "A" "textA" 5 1) "B" "textB" 10 2) =
        "textB" ∧
      current (hintClear
        (hintSet (hintSet HintState.empty "A" "textA" 5 1) "B" "textB" 10 2) "B") =
        "textA" ∧
      current (hintClearAll
        (hintSet (hintSet HintState.empty "A" "textA" 5 1) "B" "textB" 10 2)) = "") := by
  constructor
  · intro st
    constructor
    · intro h
      simp [current, h]
    · intro h
      have hl : st.entries.map (·.2) ≠ [] := by
        simpa using h
      have hperm := List.perm_insertionSort (fun a b => hintLe a b = true)
        (st.entries.map (·.2))
      have hsorted := List.sorted_insertionSort (fun a b => hintLe a b = true)
        (st.entries.map (·.2))
      cases hs : (st.entries.map (·.2)).insertionSort (fun a b => hintLe a b = true) with
      | nil =>
        rw [hs] at hperm
        exact absurd hperm.symm.eq_nil hl
      | cons e restS =>
        rw [hs] at hperm hsorted
        refine ⟨e, hperm.mem_iff.mp (by simp), ?_, ?_⟩
        · simp [current, hs]
        · intro e' he'
          have he'' : e' ∈ e :: restS := hperm.mem_iff.mpr he'
          rcases List.mem_cons.mp he'' with rfl | hmem
          · exact ⟨Int.le_refl _, fun _ => Nat.le_refl _⟩
          · have hle := (List.pairwise_cons.mp hsorted).1 e' hmem
            simp only [hintLe] at hle
            constructor
            · by_cases hp : e.priority = e'.priority
              · omega
              · rw [if_neg hp] at hle
                simp at hle
                omega
            · intro hp
              rw [if_pos hp.symm] at hle
              simpa using hle
  · refine ⟨?_, ?_, ?_⟩ <;> rfl

theorem hint_current_ordering_witness :
    ∃ e ∈ ([("A", (⟨"textA", 5, 1⟩ : HintEntry)),
            ("B", (⟨"textB", 10, 2⟩ : HintEntry))].map (·.2)),
      current ⟨[("A", ⟨"textA", 5, 1⟩), ("B", ⟨"textB", 10, 2⟩)]⟩ = e.text ∧
        ∀ e' ∈ ([("A", (⟨"textA", 5, 1⟩ : HintEntry)),
                 ("B", (⟨"textB", 10, 2⟩ : HintEntry))].map (·.2)),
          e'.priority ≤ e.priority ∧
          (e'.priority = e.priority → e'.timestamp ≤ e.timestamp) :=
  (hint_current_ordering.1 ⟨[("A", ⟨"textA", 5, 1⟩), ("B", ⟨"textB", 10, 2⟩)]⟩).2
    (by decide)

/-- Unfolding of `clearRegion` for a registered region. -/
theorem clearRegion_eq (st : ScreenState) (id : String) (rect : Rect)
    (hreg : st.regions.lookup id = some rect) :
    clearRegion st id =
      .ok ({ st with cache :=
               mapSet st.cache id (List.replicate rect.height (List.replicate rect.width ' ')) },
           (List.range rect.height).flatMap fun i =>
             [TermOp.moveTo (rect.top + i) rect.left,
              TermOp.write (List.replicate rect.width ' ')]) := by
  simp only [clearRegion, hreg]

theorem diffOps_self (l : List (List Char)) (rect : Rect) : diffOps l l rect = [] := by
  simp [diffOps]

theorem normalizeLines_length (lines : List (List Char)) (rect : Rect) :
    (normalizeLines lines rect).length = rect.height := by
  simp [normalizeLines]

theorem normalizeLines_getElem? (lines : List (List Char)) (rect : Rect) (i : Nat)
    (h : i < rect.height) :
    (normalizeLines lines rect)[i]? = some (fitText ((lines[i]?).getD []) rect.width) := by
  simp [normalizeLines, List.getElem?_map, List.getElem?_range, h]

/-- C3: a second `renderRegion` with content identical to the first performs zero
cursor-move/write operations and leaves the state unchanged — the diff against the
cache skips every line. -/
theorem renderRegion_second_render_noop (st : ScreenState) (id : String)
    (lines : List (List Char)) (st' : ScreenState) (ops : List TermOp)
    (h1 : renderRegion st id lines = .ok (st', ops)) :
    renderRegion st' id lines = .ok (st', []) := by
  cases hreg : st.regions.lookup id with
  | none =>
    rw [renderRegion] at h1
    rw [hreg] at h1
    simp at h1
  | some rect =>
    rw [renderRegion_eq st id lines rect hreg] at h1
    injection h1 with h1'
    injection h1' with hst hops
    subst hst
    have hreg' : ({ st with cache := mapSet st.cache id (normalizeLines lines rect) } :
        ScreenState).regions.lookup id = some rect := hreg
    rw [renderRegion_eq _ id lines rect hreg']
    simp [mapSet_mapSet, lookup_mapSet_self, diffOps_self]

theorem renderRegion_second_render_noop_witness :
    renderRegion ⟨[("r", [['h', 'i']])], [("r", ⟨1, 1, 2, 1⟩)]⟩ "r" [['h', 'i']] =
      .ok (⟨[("r", [['h', 'i']])], [("r", ⟨1, 1, 2, 1⟩)]⟩, []) :=
  renderRegion_second_render_noop ⟨[], [("r", ⟨1, 1, 2, 1⟩)]⟩ "r" [['h', 'i']]
    ⟨[("r", [['h', 'i']])], [("r", ⟨1, 1, 2, 1⟩)]⟩
    [TermOp.moveTo 1 1, TermOp.write ['h', 'i']] rfl

/-- C4: the installed resize handler recomputes the layout (discarding it) and clears
the cache, but re-registers no region and re-renders nothing: the regions are untouched
and no terminal operation is emitted. -/
theorem resizeHandler_no_rerender (rows cols : Nat) (st : ScreenState) :
    resizeHandler rows cols st = ({ st with cache := [] }, []) ∧
    (resizeHandler rows cols st).1.regions = st.regions ∧
    (resizeHandler rows cols st).2 = [] :=
  ⟨rfl, rfl, rfl⟩

/-- C8: contract violations fail fast: `renderRegion`/`clearRegion` on an unregistered
id report an error, and `calculateVirtualScroll` with `itemCount > 0` and an
out-of-bounds `cursorIndex` reports an error. -/
theorem failfast_errors :
    (∀ (st : ScreenState) (id : String) (lines : List (List Char)),
      st.regions.lookup id = none →
      (∃ e, renderRegion st id lines = .error e) ∧
      (∃ e, clearRegion st id = .error e)) ∧
    (∀ (itemCount : Nat) (cursorIndex : Int) (targetLines : Nat) (cost : Nat → Nat),
      0 < itemCount → (cursorIndex < 0 ∨ (itemCount : Int) ≤ cursorIndex) →
      ∃ e, calculateVirtualScroll itemCount cursorIndex targetLines cost = .error e) := by
  constructor
  · intro st id lines h
    constructor
    · refine ⟨s!"Region {id} not registered", ?_⟩
      rw [renderRegion, h]
    · refine ⟨s!"Region {id} not registered", ?_⟩
      rw [clearRegion, h]
  · intro itemCount cursorIndex targetLines cost h0 hb
    refine ⟨s!"cursorIndex {cursorIndex} is out of bounds [0, {itemCount})", ?_⟩
    simp only [calculateVirtualScroll]
    rw [if_neg (by omega), if_pos hb]

theorem failfast_errors_witness :
    (∃ e, renderRegion ⟨[], []⟩ "main" [['x']] = .error e) ∧
    (∃ e, clearRegion ⟨[], []⟩ "main" = .error e) ∧
    (∃ e, calculateVirtualScroll 1 5 10 (fun _ => 1) = .error e) :=
  ⟨(failfast_errors.1 ⟨[], []⟩ "main" [['x']] rfl).1,
   (failfast_errors.1 ⟨[], []⟩ "main" [['x']] rfl).2,
   failfast_errors.2 1 5 10 (fun _ => 1) (by decide) (by decide)⟩

/-- C9: cache-shape invariant: after any successful `renderRegion` or `clearRegion` on
a region registered with `rect`, the cached entry consists of exactly `rect.height`
strings; and for content containing no escape sequences (as well as always after
`clearRegion`) every cached string has raw length exactly `rect.width`. -/
theorem cache_shape_invariant :
    (∀ (st : ScreenState) (id : String) (lines : List (List Char)) (rect : Rect)
        (st' : ScreenState) (ops : List TermOp),
      st.regions.lookup id = some rect →
      renderRegion st id lines = .ok (st', ops) →
      ∃ cached, st'.cache.lookup id = some cached ∧
        cached.length = rect.height ∧
        ((∀ l ∈ lines, ESC ∉ l) → ∀ l ∈ cached, l.length = rect.width)) ∧
    (∀ (st : ScreenState) (id : String) (rect : Rect)
        (st' : ScreenState) (ops : List TermOp),
      st.regions.lookup id = some rect →
      clearRegion st id = .ok (st', ops) →
      ∃ cached, st'.cache.lookup id = some cached ∧
        cached.length = rect.height ∧ ∀ l ∈ cached, l.length = rect.width) := by
  constructor
  · intro st id lines rect st' ops hreg hrun
    rw [renderRegion_eq st id lines rect hreg] at hrun
    injection hrun with h'
    injection h' with hst hops
    subst hst
    refine ⟨normalizeLines lines rect, lookup_mapSet_self st.cache id _,
      normalizeLines_length lines rect, ?_⟩
    intro hesc l hl
    simp only [normalizeLines, List.mem_map, List.mem_range] at hl
    obtain ⟨i, _, rfl⟩ := hl
    apply fitText_length_of_noEsc
    cases hline : lines[i]? with
    | none => simp
    | some t =>
      simpa using hesc t (List.getElem?_mem hline)
  · intro st id rect st' ops hreg hrun
    rw [clearRegion_eq st id rect hreg] at hrun
    injection hrun with h'
    injection h' with hst hops
    subst hst
    refine ⟨List.replicate rect.height (List.replicate rect.width ' '),
      lookup_mapSet_self st.cache id _, by simp, ?_⟩
    intro l hl
    rw [List.eq_of_mem_replicate hl]
    simp

theorem cache_shape_invariant_witness :
    (∃ cached, (⟨[("r", [['h', 'i']])], [("r", ⟨1, 1, 2, 1⟩)]⟩ : ScreenState).cache.lookup
        "r" = some cached ∧
      cached.length = 1 ∧
      ((∀ l ∈ ([['h', 'i']] : List (List Char)), ESC ∉ l) → ∀ l ∈ cached, l.length = 2)) ∧
    (∃ cached,
      (⟨[("s", [['\x1b', '[', '3', '1', 'm', 'h', 'i']])],
          [("s", ⟨1, 1, 2, 1⟩)]⟩ : ScreenState).cache.lookup "s" = some cached ∧
      cached.length = 1 ∧
      ((∀ l ∈ ([['\x1b', '[', '3', '1', 'm', 'h', 'i']] : List (List Char)), ESC ∉ l) →
        ∀ l ∈ cached, l.length = 2)) ∧
    (∃ cached, (⟨[("r", [[' ', ' ']])], [("r", ⟨1, 1, 2, 1⟩)]⟩ : ScreenState).cache.lookup
        "r" = some cached ∧
      cached.length = 1 ∧ ∀ l ∈ cached, l.length = 2) :=
  ⟨cache_shape_invariant.1 ⟨[], [("r", ⟨1, 1, 2, 1⟩)]⟩ "r" [['h', 'i']] ⟨1, 1, 2, 1⟩
      ⟨[("r", [['h', 'i']])], [("r", ⟨1, 1, 2, 1⟩)]⟩
      [TermOp.moveTo 1 1, TermOp.write ['h', 'i']] rfl rfl,
   cache_shape_invariant.1 ⟨[], [("s", ⟨1, 1, 2, 1⟩)]⟩ "s"
      [['\x1b', '[', '3', '1', 'm', 'h', 'i']] ⟨1, 1, 2, 1⟩
      ⟨[("s", [['\x1b', '[', '3', '1', 'm', 'h', 'i']])], [("s", ⟨1, 1, 2, 1⟩)]⟩
      [TermOp.moveTo 1 1, TermOp.write ['\x1b', '[', '3', '1', 'm', 'h', 'i']] rfl rfl,
   cache_shape_invariant.2 ⟨[], [("r", ⟨1, 1, 2, 1⟩)]⟩ "r" ⟨1, 1, 2, 1⟩
      ⟨[("r", [[' ', ' ']])], [("r", ⟨1, 1, 2, 1⟩)]⟩
      [TermOp.moveTo 1 1, TermOp.write [' ', ' ']] rfl rfl⟩

/-- C10: `renderRegion` ignores entries beyond `rect.height`: the call behaves exactly
as the call on the truncated list, so writes and cache depend only on the first
`rect.height` entries. -/
theorem renderRegion_ignores_overflow (st : ScreenState) (id : String)
    (lines : List (List Char)) (rect : Rect)
    (hreg : st.regions.lookup id = some rect) :
    renderRegion st id lines = renderRegion st id (lines.take rect.height) := by
  rw [renderRegion_eq st id lines rect hreg,
    renderRegion_eq st id (lines.take rect.height) rect hreg]
  have hnorm : normalizeLines (lines.take rect.height) rect = normalizeLines lines rect := by
    simp only [normalizeLines]
    refine List.map_congr_left fun i hi => ?_
    rw [List.getElem?_take, if_pos (List.mem_range.mp hi)]
  rw [hnorm]

theorem renderRegion_ignores_overflow_witness :
    renderRegion ⟨[], [("r", ⟨1, 1, 1, 1⟩)]⟩ "r" [['a'], ['b'], ['c']] =
      renderRegion ⟨[], [("r", ⟨1, 1, 1, 1⟩)]⟩ "r" ([['a'], ['b'], ['c']].take 1) :=
  renderRegion_ignores_overflow ⟨[], [("r", ⟨1, 1, 1, 1⟩)]⟩ "r" [['a'], ['b'], ['c']]
    ⟨1, 1, 1, 1⟩ rfl

/-- C1 (amended): for every registered region, `renderRegion` normalizes the input to
exactly `rect.height` entries (missing trailing lines become blank rows of spaces);
a line whose visible length fits is right-padded with spaces to visible length exactly
`rect.width`; a line whose visible length overflows keeps its leading style run and is
cut to `rect.width` raw characters after that run (so its visible length can fall short
of `rect.width` when escape sequences occur past that run — the amendment); every
normalized line that differs from the cached line at the same offset gets a cursor move
and a write; and the normalized lines are stored.  The "main" scenario stores the three
padded/truncated/blank rows and writes exactly 3 lines. -/
theorem renderRegion_normalizes :
    (∀ (st : ScreenState) (id : String) (lines : List (List Char)) (rect : Rect)
        (st' : ScreenState) (ops : List TermOp),
      st.regions.lookup id = some rect →
      renderRegion st id lines = .ok (st', ops) →
      ∃ next, st'.cache.lookup id = some next ∧
        next.length = rect.height ∧
        (∀ i, i < rect.height →
          next[i]? = some (fitText ((lines[i]?).getD []) rect.width)) ∧
        (∀ i, i < rect.height → lines.length ≤ i →
          next[i]? = some (List.replicate rect.width ' ')) ∧
        (∀ i, i < rect.height →
          (stripAnsi ((lines[i]?).getD [])).length ≤ rect.width →
          fitText ((lines[i]?).getD []) rect.width =
              (lines[i]?).getD [] ++
                List.replicate (rect.width - (stripAnsi ((lines[i]?).getD [])).length) ' ' ∧
            (stripAnsi (fitText ((lines[i]?).getD []) rect.width)).length = rect.width) ∧
        (∀ i, i < rect.height →
          rect.width < (stripAnsi ((lines[i]?).getD [])).length →
          fitText ((lines[i]?).getD []) rect.width =
            ansiPrefix ((lines[i]?).getD []) ++
              (((lines[i]?).getD []).drop
                (ansiPrefix ((lines[i]?).getD [])).length).take rect.width) ∧
        (∀ i, i < rect.height →
          ¬ next[i]? = ((st.cache.lookup id).getD [])[i]? →
          TermOp.moveTo (rect.top + i) rect.left ∈ ops ∧
            TermOp.write (fitText ((lines[i]?).getD []) rect.width) ∈ ops)) ∧
    (renderRegion ⟨[], [("main", ⟨5, 1, 10, 3⟩)]⟩ "main"
        [['a', 'b'], ['a', 'b', 'c', 'd', 'e', 'f', 'g', 'h', 'i', 'j', 'k', 'l']] =
      .ok (⟨[("main",
              [['a', 'b', ' ', ' ', ' ', ' ', ' ', ' ', ' ', ' '],
               ['a', 'b', 'c', 'd', 'e', 'f', 'g', 'h', 'i', 'j'],
               [' ', ' ', ' ', ' ', ' ', ' ', ' ', ' ', ' ', ' ']])],
             [("main", ⟨5, 1, 10, 3⟩)]⟩,
            [TermOp.moveTo 5 1,
             TermOp.write ['a', 'b', ' ', ' ', ' ', ' ', ' ', ' ', ' ', ' '],
             TermOp.moveTo 6 1,
             TermOp.write ['a', 'b', 'c', 'd', 'e', 'f', 'g', 'h', 'i', 'j'],
             TermOp.moveTo 7 1,
             TermOp.write [' ', ' ', ' ', ' ', ' ', ' ', ' ', ' ', ' ', ' ']])) := by
  constructor
  · intro st id lines rect st' ops hreg hrun
    rw [renderRegion_eq st id lines rect hreg] at hrun
    injection hrun with h'
    injection h' with hst hops
    subst hst
    subst hops
    refine ⟨normalizeLines lines rect, lookup_mapSet_self st.cache id _,
      normalizeLines_length lines rect, ?_, ?_, ?_, ?_, ?_⟩
    · intro i hi
      exact normalizeLines_getElem? lines rect i hi
    · intro i hi hlen
      rw [normalizeLines_getElem? lines rect i hi, List.getElem?_eq_none hlen]
      simp [fitText_nil]
    · intro i _ hle
      exact ⟨fitText_eq_pad _ _ hle, stripAnsi_fitText_of_le _ _ hle⟩
    · intro i _ hlt
      exact fitText_eq_trunc _ _ hlt
    · intro i hi hne
      rw [normalizeLines_getElem? lines rect i hi] at hne
      have hmem : ∀ x ∈ [TermOp.moveTo (rect.top + i) rect.left,
          TermOp.write (fitText ((lines[i]?).getD []) rect.width)],
          x ∈ diffOps ((st.cache.lookup id).getD []) (normalizeLines lines rect) rect := by
        intro x hx
        simp only [diffOps]
        apply List.mem_flatMap.mpr
        refine ⟨i, List.mem_range.mpr hi, ?_⟩
        rw [normalizeLines_getElem? lines rect i hi, if_neg hne]
        simpa using hx
      exact ⟨hmem _ (by simp), hmem _ (by simp)⟩
  · rfl

theorem renderRegion_normalizes_witness :
    ∃ next,
      (⟨[("r", [['x', 'y']])], [("r", ⟨1, 1, 2, 1⟩)]⟩ : ScreenState).cache.lookup "r" =
          some next ∧
      next.length = 1 ∧
      (∀ i, i < 1 →
        next[i]? = some (fitText ((([['x', 'y', 'z']] : List (List Char))[i]?).getD []) 2)) ∧
      (∀ i, i < 1 → ([['x', 'y', 'z']] : List (List Char)).length ≤ i →
        next[i]? = some (List.replicate 2 ' ')) ∧
      (∀ i, i < 1 →
        (stripAnsi ((([['x', 'y', 'z']] : List (List Char))[i]?).getD [])).length ≤ 2 →
        fitText ((([['x', 'y', 'z']] : List (List Char))[i]?).getD []) 2 =
            (([['x', 'y', 'z']] : List (List Char))[i]?).getD [] ++
              List.replicate
                (2 - (stripAnsi ((([['x', 'y', 'z']] : List (List Char))[i]?).getD
                  [])).length) ' ' ∧
          (stripAnsi (fitText ((([['x', 'y', 'z']] : List (List Char))[i]?).getD [])
            2)).length = 2) ∧
      (∀ i, i < 1 →
        2 < (stripAnsi ((([['x', 'y', 'z']] : List (List Char))[i]?).getD [])).length →
        fitText ((([['x', 'y', 'z']] : List (List Char))[i]?).getD []) 2 =
          ansiPrefix ((([['x', 'y', 'z']] : List (List Char))[i]?).getD []) ++
            (((([['x', 'y', 'z']] : List (List Char))[i]?).getD []).drop
              (ansiPrefix ((([['x', 'y', 'z']] : List (List Char))[i]?).getD
                [])).length).take 2) ∧
      (∀ i, i < 1 →
        ¬ next[i]? =
            (((⟨[], [("r", ⟨1, 1, 2, 1⟩)]⟩ : ScreenState).cache.lookup "r").getD [])[i]? →
        TermOp.moveTo (1 + i) 1 ∈
            [TermOp.moveTo 1 1, TermOp.write ['x', 'y']] ∧
          TermOp.write (fitText ((([['x', 'y', 'z']] : List (List Char))[i]?).getD []) 2) ∈
            [TermOp.moveTo 1 1, TermOp.write ['x', 'y']]) :=
  renderRegion_normalizes.1 ⟨[], [("r", ⟨1, 1, 2, 1⟩)]⟩ "r" [['x', 'y', 'z']]
    ⟨1, 1, 2, 1⟩ ⟨[("r", [['x', 'y']])], [("r", ⟨1, 1, 2, 1⟩)]⟩
    [TermOp.moveTo 1 1, TermOp.write ['x', 'y']] rfl rfl

/-- C1 counterexample: truncating `"a\x1b[1mbcdef"` to width 5 stores
`['a', ESC, '[', '1', 'm']`, whose visible (ANSI-stripped) length is 1, not 5 — the
claim that the stored line's visible length always equals `rect.width` fails when an
escape sequence occurs after the first visible character. -/
theorem renderRegion_visible_width_counterexample :
    renderRegion ⟨[], [("r", ⟨1, 1, 5, 1⟩)]⟩ "r"
        [['a', '\x1b', '[', '1', 'm', 'b', 'c', 'd', 'e', 'f']] =
      .ok (⟨[("r", [['a', '\x1b', '[', '1', 'm']])], [("r", ⟨1, 1, 5, 1⟩)]⟩,
        [TermOp.moveTo 1 1, TermOp.write ['a', '\x1b', '[', '1', 'm']]) ∧
    (stripAnsi ['a', '\x1b', '[', '1', 'm']).length = 1 ∧ ¬ (1 = 5) :=
  ⟨rfl, rfl, by decide⟩

end CliMenuKit
